import Mathlib

/-!
# Verification of the numeric/address normalization layer of starknet-mcp-server

Shallow embedding of the pure string/number algorithms of the repository's
core services (`src/core/services/balance.ts`, `tokens.ts`, `utils.ts`,
`clients.ts`, and the transfer service), together with models of the small
pieces of the external `starknet` / `starknetid.js` libraries that those
algorithms call.  Strings are embedded as `List Char`; JavaScript `bigint`
values as `Int` (they are arbitrary precision, so no wrap-around is needed);
thrown exceptions as `Except` errors.

Every definition is translated from the TypeScript source, except the ones
whose doc comment starts with `Modelled from the spec:`, which stand for
library code that is not part of the repository and are written from the
specification's description of it.
-/

set_option maxRecDepth 100000

namespace StarknetMCP

/-! ## Digit strings

`digitToChar` / `charToDigit?` model the character set of JavaScript's
`BigInt.prototype.toString(radix)` (lowercase) and of the `BigInt`
constructor (which accepts both cases for hex digits). -/

def digitToChar (d : Nat) : Char :=
  Char.ofNat (if d < 10 then 48 + d else 87 + d)

def charToDigit? (c : Char) : Option Nat :=
  if 48 ≤ c.toNat ∧ c.toNat ≤ 57 then some (c.toNat - 48)
  else if 97 ≤ c.toNat ∧ c.toNat ≤ 102 then some (c.toNat - 87)
  else if 65 ≤ c.toNat ∧ c.toNat ≤ 70 then some (c.toNat - 55)
  else none

/-- Little-endian digits of `n` in base `b`, with explicit fuel so that the
recursion is structural (fuel `n` is always enough for `b ≥ 2`). -/
def digitsRev (b : Nat) : Nat → Nat → List Nat
  | 0, _ => []
  | fuel + 1, n => if n = 0 then [] else n % b :: digitsRev b fuel (n / b)

/-- Model of JavaScript `BigInt.prototype.toString(b)` for a non-negative
value: most-significant-first digit characters, `"0"` for zero, no leading
zeros otherwise. -/
def natToChars (b n : Nat) : List Char :=
  if n = 0 then ['0'] else ((digitsRev b n n).reverse).map digitToChar

/-- Value of a little-endian digit list. -/
def valLSB (b : Nat) (l : List Nat) : Nat :=
  l.foldr (fun d acc => d + b * acc) 0

/-- Value of a most-significant-first digit list. -/
def valMSB (b : Nat) (l : List Nat) : Nat :=
  l.foldl (fun acc d => acc * b + d) 0

def parseBaseAux (b : Nat) : Nat → List Char → Option Nat
  | acc, [] => some acc
  | acc, c :: cs =>
    match charToDigit? c with
    | some d => if d < b then parseBaseAux b (acc * b + d) cs else none
    | none => none

/-- Digit-string parser in base `b`: fails on the empty string and on any
character that is not a digit of the base. -/
def parseBase? (b : Nat) (s : List Char) : Option Nat :=
  if s = [] then none else parseBaseAux b 0 s

/-- Model of the JavaScript `BigInt(string)` constructor on the string shapes
this code produces: the empty string denotes zero, a `0x` prefix selects
hexadecimal, an optional sign precedes decimal digits, and anything else
throws (`none`).  (Whitespace trimming and the `0b`/`0o`/`0X` prefixes of
full JavaScript never arise in this code and are not modelled.) -/
def jsBigInt? (s : List Char) : Option Int :=
  if s = [] then some 0
  else if s.take 2 = ['0', 'x'] then (parseBase? 16 (s.drop 2)).map Int.ofNat
  else if s.head? = some '-' then (parseBase? 10 s.tail).map (fun n => -(n : Int))
  else if s.head? = some '+' then (parseBase? 10 s.tail).map Int.ofNat
  else (parseBase? 10 s).map Int.ofNat

/-! ## JavaScript string helpers -/

/-- `String.prototype.padStart(target, c)`: left-pad to length `target`
(no-op when already at least that long). -/
def padStart (s : List Char) (target : Nat) (c : Char) : List Char :=
  List.replicate (target - s.length) c ++ s

/-- `String.prototype.padEnd(target, c)`. -/
def padEnd (s : List Char) (target : Nat) (c : Char) : List Char :=
  s ++ List.replicate (target - s.length) c

/-- First component of `s.split('.')`. -/
def splitIntPart (s : List Char) : List Char :=
  s.takeWhile (fun c => !(c == '.'))

/-- Second component of `s.split('.')`, with the destructuring default `''`
when there is no second component. -/
def splitFracPart (s : List Char) : List Char :=
  match s.dropWhile (fun c => !(c == '.')) with
  | [] => []
  | _ :: rest => rest.takeWhile (fun c => !(c == '.'))

/-! ## Decimal scaling (`balance.ts` 33-41, transfer service 38-68)

`formatAmount` in `balance.ts` and `formatTokenAmount` in `tokens.ts` are
textually identical; `formatAmount` embeds both. -/

/-- `formatAmount` (`src/core/services/balance.ts`, lines 33-41). -/
def formatAmount (amount : Nat) (decimals : Nat) : List Char :=
  if decimals = 0 then natToChars 10 amount
  else
    let amountStr := padStart (natToChars 10 amount) (decimals + 1) '0'
    let integerPart :=
      let ip := amountStr.take (amountStr.length - decimals)
      if ip = [] then ['0'] else ip
    let fractionalPart := amountStr.drop (amountStr.length - decimals)
    integerPart ++ '.' :: fractionalPart

inductive TransferErr where
  | tooManyDecimals (maxAllowed : Nat)
  | notNumeric
  deriving DecidableEq

/-- The `string | bigint` amount parameter of the transfer service. -/
inductive AmountInput where
  | str (s : List Char)
  | big (n : Int)

/-- `parseTokenAmount` (transfer service, lines 38-68).  A `bigint` amount is
returned unchanged; a string with a decimal point is split, checked against
`decimals`, right-padded, concatenated, stripped of leading zeros and parsed;
a string without one is parsed and multiplied by `10 ^ decimals`. -/
def parseTokenAmount (amount : AmountInput) (decimals : Nat) : Except TransferErr Int :=
  match amount with
  | .big n => .ok n
  | .str amountStr =>
    if amountStr.contains '.' then
      let integerPart := splitIntPart amountStr
      let fractionalPart := splitFracPart amountStr
      if decimals < fractionalPart.length then
        .error (.tooManyDecimals decimals)
      else
        let paddedFractionalPart := padEnd fractionalPart decimals '0'
        let combinedAmount := integerPart ++ paddedFractionalPart
        let stripped := combinedAmount.dropWhile (fun c => c == '0')
        match jsBigInt? (if stripped = [] then ['0'] else stripped) with
        | some n => .ok n
        | none => .error .notNumeric
    else
      match jsBigInt? amountStr with
      | some n => .ok (n * (10 : Int) ^ decimals)
      | none => .error .notNumeric

/-- The spec's `formatScaled`, written from the spec's words: "left-pad the
decimal string representation of `raw` with zeros until its length exceeds
`decimals`; the integer part is everything before the last `decimals` digits
(or `\"0\"` if empty); the fractional part is exactly the last `decimals`
digits. When `decimals == 0`, returns the plain integer string with no
decimal point." -/
def formatScaledSpec (raw decimals : Nat) : List Char :=
  if decimals = 0 then natToChars 10 raw
  else
    let digitsStr := natToChars 10 raw
    let s :=
      if decimals < digitsStr.length then digitsStr
      else List.replicate (decimals + 1 - digitsStr.length) '0' ++ digitsStr
    let intPart := s.take (s.length - decimals)
    (if intPart = [] then ['0'] else intPart) ++ '.' :: s.drop (s.length - decimals)

/-- The spec's `parseScaled`, written from the spec's words: "splits on a
decimal point, pads or rejects (`TooManyFractionalDigitsError` if the
fractional part is longer than `decimals`), pads the fractional part on the
right with zeros to length `decimals`, concatenates, strips leading zeros,
parses as integer. If no decimal point present, multiplies the whole input by
`10^decimals`." -/
def parseScaledSpec (s : List Char) (decimals : Nat) : Except TransferErr Int :=
  if s.contains '.' then
    let frac := splitFracPart s
    if decimals < frac.length then .error (.tooManyDecimals decimals)
    else
      let joined := splitIntPart s ++ padEnd frac decimals '0'
      let strippedZeros := joined.dropWhile (fun c => c == '0')
      match jsBigInt? (if strippedZeros = [] then ['0'] else strippedZeros) with
      | some n => .ok n
      | none => .error .notNumeric
  else
    match jsBigInt? s with
    | some n => .ok (n * (10 : Int) ^ decimals)
    | none => .error .notNumeric

/-! ## Address normalization (`clients.ts` 102-113, `utils.ts` 97-104) -/

inductive AddrErr where
  | invalidAddress
  deriving DecidableEq

/-- The field width used by the modelled address validation: 251 bits. -/
def FIELD_BOUND : Nat := 2 ^ 251

/-- Modelled from the spec: the external `starknet` library's
`validateAndParseAddress`, which is not part of this repository.  Per the
spec, address normalization "accepts a hex string" and "fails with
`InvalidAddressError` if ... the result is not valid hex or exceeds the field
width", and the canonical form is "a fixed-width hex string with a mandated
prefix".  The field width is taken as 251 bits and the canonical width as 64
hex digits with a `0x` prefix. -/
def validateAndParseAddress (s : List Char) : Except AddrErr (List Char) :=
  if s.take 2 = ['0', 'x'] then
    match parseBase? 16 (s.drop 2) with
    | some v =>
      if v < FIELD_BOUND then .ok ('0' :: 'x' :: padStart (natToChars 16 v) 64 '0')
      else .error .invalidAddress
    | none => .error .invalidAddress
  else .error .invalidAddress

/-- `parseStarknetAddress` (`src/core/services/clients.ts`, lines 102-113):
validate; on failure, if the input lacks the `0x` prefix, prefix it and call
itself again.  The source's recursion terminates after that one retry (the
prefixed argument starts with `0x`, so the retry guard then fails), so it is
unrolled here. -/
def parseStarknetAddress (address : List Char) : Except AddrErr (List Char) :=
  match validateAndParseAddress address with
  | .ok r => .ok r
  | .error _ =>
    if address.take 2 = ['0', 'x'] then .error .invalidAddress
    else
      match validateAndParseAddress ('0' :: 'x' :: address) with
      | .ok r => .ok r
      | .error _ => .error .invalidAddress

/-- `utils.isValidAddress` (`src/core/services/utils.ts`, lines 97-104):
true iff `validateAndParseAddress` succeeds (no prefix retry here). -/
def isValidAddress (address : List Char) : Bool :=
  match validateAndParseAddress address with
  | .ok _ => true
  | .error _ => false

/-! ## Identifier resolution (`utils.ts` 113-150) -/

def isNameChar (c : Char) : Bool :=
  (decide ('a' ≤ c) && decide (c ≤ 'z')) ||
  (decide ('0' ≤ c) && decide (c ≤ '9')) || c == '-'

def starkSuffix : List Char := ['.', 's', 't', 'a', 'r', 'k']

/-- `s.endsWith('.stark')`. -/
def endsWithStark (s : List Char) : Bool :=
  if s.length < 6 then false else s.drop (s.length - 6) == starkSuffix

/-- Modelled from the spec: the external `starknetid.js` library's
`utils.isStarkDomain`, which is not part of this repository.  Written from
the spec's `isValidName`: "true iff candidate matches `^[a-z0-9-]{1,31}$`
after stripping an optional domain suffix". -/
def isStarkDomain (s : List Char) : Bool :=
  let base := if endsWithStark s then s.take (s.length - 6) else s
  !base.isEmpty && decide (base.length ≤ 31) && base.all isNameChar

inductive ResolveFailure where
  | lookupRaised
  | couldNotResolve
  | invalidOrUnresolvable
  deriving DecidableEq

/-- The single error shape thrown by `resolveNameOrAddress`: its catch block
rethrows every inner failure wrapped in an "Error resolving name or address"
message. -/
inductive ResolveErr where
  | errorResolving (inner : ResolveFailure)
  deriving DecidableEq

/-- `utils.resolveNameOrAddress` (`src/core/services/utils.ts`, lines
113-150), with the directory-service call `getAddressFromStarkName`
abstracted as `lookup` (`.error ()` models the call throwing).  A valid
address is returned as-is; otherwise, inside a try block, a Stark domain gets
the `.stark` suffix appended if absent and is looked up, an empty or exactly
`'0x0'` result throws, and a non-domain throws; the catch block wraps and
rethrows every inner failure. -/
def resolveNameOrAddress (lookup : List Char → Except Unit (List Char))
    (nameOrAddress : List Char) : Except ResolveErr (List Char) :=
  if isValidAddress nameOrAddress then .ok nameOrAddress
  else
    let inner : Except ResolveFailure (List Char) :=
      if isStarkDomain nameOrAddress then
        let name :=
          if endsWithStark nameOrAddress then nameOrAddress
          else nameOrAddress ++ starkSuffix
        match lookup name with
        | .error _ => .error .lookupRaised
        | .ok address =>
          if address.isEmpty || address == ['0', 'x', '0'] then
            .error .couldNotResolve
          else .ok address
      else .error .invalidOrUnresolvable
    match inner with
    | .ok a => .ok a
    | .error e => .error (.errorResolving e)

/-! ## Felt decoding (`utils.ts` 47-54) -/

/-- `utils.feltToString` (`src/core/services/utils.ts`, lines 47-54), with
the external `shortString.decodeShortString` abstracted as `decode` (`none`
models the call throwing).  The catch block logs the error and returns
`String(felt)` — the input itself — as a fallback. -/
def feltToString (decode : List Char → Option (List Char))
    (felt : List Char) : List Char :=
  match decode felt with
  | some s => s
  | none => felt

/-! ## uint256 split/combine (`utils.ts` 183-215) -/

inductive U256Err where
  | rangeError
  | notNumeric
  deriving DecidableEq

/-- Modelled from the spec: the external `starknet` library's
`uint256.bnToUint256`, which is not part of this repository.  Per the spec,
the split "computes `low = value mod 2^128`, `high = value div 2^128`" and
"fails with `RangeError` if `value >= 2^256` or negative"; the library
returns the two words as `0x`-prefixed hex strings. -/
def bnToUint256 (value : Int) : Except U256Err (List Char × List Char) :=
  if value < 0 ∨ 2 ^ 256 ≤ value then .error .rangeError
  else
    .ok ('0' :: 'x' :: natToChars 16 (value.toNat % 2 ^ 128),
         '0' :: 'x' :: natToChars 16 (value.toNat / 2 ^ 128))

/-- `utils.splitUint256` (`src/core/services/utils.ts`, lines 183-198): call
the library conversion inside a try block; if it throws, fall back to manual
masking (`value & (2^128 - 1)` and `(value >> 128) & (2^128 - 1)`, both as
`0x`-prefixed hex).  JavaScript `&`/`>>` on `bigint` agree with `Int.emod` /
`Int.ediv` here, and none of the fallback operations can throw, so the
function is total. -/
def splitUint256 (value : Int) : List Char × List Char :=
  match bnToUint256 value with
  | .ok lowHigh => lowHigh
  | .error _ =>
    ('0' :: 'x' :: natToChars 16 (value % 2 ^ 128).toNat,
     '0' :: 'x' :: natToChars 16 ((value / 2 ^ 128) % 2 ^ 128).toNat)

/-- Modelled from the spec: the external `starknet` library's
`uint256.uint256ToBN`, which is not part of this repository.  Per the spec,
`joinFromDoubleWord(low, high)` is "`low + high*2^128`"; the string inputs
are converted with the JavaScript `BigInt` constructor, which throws on
non-numeric strings. -/
def uint256ToBN (low high : List Char) : Except U256Err Int :=
  match jsBigInt? low, jsBigInt? high with
  | some l, some h => .ok (l + h * 2 ^ 128)
  | _, _ => .error .notNumeric

/-- `utils.combineUint256` (`src/core/services/utils.ts`, lines 206-215):
call the library join inside a try block; the fallback recomputes
`BigInt(low) + (BigInt(high) << 128)`, which under the model fails exactly
when the library call does. -/
def combineUint256 (low high : List Char) : Except U256Err Int :=
  match uint256ToBN low high with
  | .ok v => .ok v
  | .error _ =>
    match jsBigInt? low, jsBigInt? high with
    | some l, some h => .ok (l + h * 2 ^ 128)
    | _, _ => .error .notNumeric

/-! ## Lemmas: digit strings round-trip -/

theorem charToDigit?_digitToChar {d : Nat} (hd : d < 16) :
    charToDigit? (digitToChar d) = some d := by
  interval_cases d <;> decide

theorem digitsRev_lt {b : Nat} (hb : 0 < b) :
    ∀ fuel n d, d ∈ digitsRev b fuel n → d < b := by
  intro fuel
  induction fuel with
  | zero => intro n d h; simp [digitsRev] at h
  | succ fuel ih =>
    intro n d h
    by_cases hn : n = 0
    · simp [digitsRev, hn] at h
    · simp only [digitsRev, if_neg hn, List.mem_cons] at h
      rcases h with h | h
      · subst h; exact Nat.mod_lt _ hb
      · exact ih _ _ h

theorem valLSB_digitsRev {b : Nat} (hb : 2 ≤ b) :
    ∀ fuel n, n ≤ fuel → valLSB b (digitsRev b fuel n) = n := by
  intro fuel
  induction fuel with
  | zero => intro n hn; interval_cases n; simp [digitsRev, valLSB]
  | succ fuel ih =>
    intro n hn
    by_cases hn0 : n = 0
    · simp [digitsRev, hn0, valLSB]
    · have hdiv : n / b < n := Nat.div_lt_self (Nat.pos_of_ne_zero hn0) (by omega)
      have hfuel : n / b ≤ fuel := by omega
      simp only [digitsRev, if_neg hn0, valLSB, List.foldr_cons]
      have ihv := ih (n / b) hfuel
      simp only [valLSB] at ihv
      rw [ihv]
      exact Nat.mod_add_div n b

theorem valMSB_reverse {b : Nat} (l : List Nat) : valMSB b l.reverse = valLSB b l := by
  induction l with
  | nil => rfl
  | cons d l ih =>
    simp only [List.reverse_cons, valMSB, List.foldl_append, List.foldl_cons, List.foldl_nil,
      valLSB, List.foldr_cons] at *
    rw [ih]
    ring

theorem parseBaseAux_map {b : Nat} (hb : b ≤ 16) :
    ∀ (l : List Nat) (acc : Nat), (∀ d ∈ l, d < b) →
      parseBaseAux b acc (l.map digitToChar) = some (l.foldl (fun a d => a * b + d) acc) := by
  intro l
  induction l with
  | nil => intro acc _; rfl
  | cons d l ih =>
    intro acc hall
    have hd : d < b := hall d (by simp)
    simp only [List.map_cons, parseBaseAux, charToDigit?_digitToChar (lt_of_lt_of_le hd hb),
      if_pos hd, List.foldl_cons]
    exact ih (acc * b + d) (fun x hx => hall x (by simp [hx]))

theorem parseBaseAux_replicate_zero {b : Nat} (hb : 0 < b) (k : Nat) (s : List Char) :
    parseBaseAux b 0 (List.replicate k '0' ++ s) = parseBaseAux b 0 s := by
  induction k with
  | zero => rfl
  | succ k ih =>
    have h0 : charToDigit? '0' = some 0 := rfl
    simp only [List.replicate_succ, List.cons_append, parseBaseAux, h0, if_pos hb]
    simpa using ih

theorem natToChars_ne_nil (b n : Nat) : natToChars b n ≠ [] := by
  unfold natToChars
  split
  · simp
  · rename_i hn
    cases n with
    | zero => exact absurd rfl hn
    | succ m => simp [digitsRev]

theorem natToChars_mem {b n : Nat} (hb : 2 ≤ b) (hb16 : b ≤ 16) {c : Char}
    (hc : c ∈ natToChars b n) : ∃ d, d < b ∧ charToDigit? c = some d := by
  unfold natToChars at hc
  split at hc
  · simp at hc; subst hc; exact ⟨0, by omega, rfl⟩
  · simp only [List.mem_map, List.mem_reverse] at hc
    obtain ⟨d, hd, rfl⟩ := hc
    have hdb : d < b := digitsRev_lt (by omega) _ _ _ hd
    exact ⟨d, hdb, charToDigit?_digitToChar (by omega)⟩

theorem parseBaseAux_natToChars {b : Nat} (hb : 2 ≤ b) (hb16 : b ≤ 16) (n : Nat) :
    parseBaseAux b 0 (natToChars b n) = some n := by
  unfold natToChars
  split
  · rename_i hn
    subst hn
    have h0 : charToDigit? '0' = some 0 := rfl
    simp [parseBaseAux, h0, show 0 < b by omega]
  · rename_i hn
    rw [parseBaseAux_map hb16 _ 0
      (fun d hd => digitsRev_lt (by omega) _ _ _ (List.mem_reverse.mp hd))]
    have h1 : (digitsRev b n n).reverse.foldl (fun a d => a * b + d) 0
        = valMSB b (digitsRev b n n).reverse := rfl
    rw [h1, valMSB_reverse, valLSB_digitsRev hb _ _ le_rfl]

theorem digitsRev_length_le {b : Nat} (hb : 2 ≤ b) :
    ∀ fuel n k, n ≤ fuel → n < b ^ k → (digitsRev b fuel n).length ≤ k := by
  intro fuel
  induction fuel with
  | zero => intro n k _ _; simp [digitsRev]
  | succ fuel ih =>
    intro n k hn hk
    by_cases hn0 : n = 0
    · simp [digitsRev, hn0]
    · have hk0 : k ≠ 0 := by
        rintro rfl
        simp only [pow_zero] at hk
        omega
      obtain ⟨k, rfl⟩ := Nat.exists_eq_succ_of_ne_zero hk0
      have hdiv : n / b < n := Nat.div_lt_self (Nat.pos_of_ne_zero hn0) (by omega)
      have h1 : n / b ≤ fuel := by omega
      have h2 : n / b < b ^ k := by
        rw [Nat.div_lt_iff_lt_mul (by omega : 0 < b)]
        calc n < b ^ (k + 1) := hk
          _ = b ^ k * b := by ring
      simp only [digitsRev, if_neg hn0, List.length_cons]
      have := ih (n / b) k h1 h2
      omega

theorem natToChars_length_le {b n k : Nat} (hb : 2 ≤ b) (hk : 0 < k) (h : n < b ^ k) :
    (natToChars b n).length ≤ k := by
  unfold natToChars
  split
  · simpa using hk
  · simpa using digitsRev_length_le hb n n k le_rfl h

/-! ## Lemmas: splitting and parsing strings -/

theorem takeWhile_eq_self {p : Char → Bool} :
    ∀ l : List Char, (∀ c ∈ l, p c = true) → l.takeWhile p = l := by
  intro l
  induction l with
  | nil => intro _; rfl
  | cons x l ih =>
    intro h
    rw [List.takeWhile_cons, if_pos (h x (by simp)), ih (fun c hc => h c (by simp [hc]))]

theorem takeWhile_append_stop {p : Char → Bool} :
    ∀ (a : List Char) (x : Char) (b : List Char), (∀ c ∈ a, p c = true) → p x = false →
      (a ++ x :: b).takeWhile p = a := by
  intro a
  induction a with
  | nil => intro x b _ hx; simp [List.takeWhile_cons, hx]
  | cons y a ih =>
    intro x b h hx
    rw [List.cons_append, List.takeWhile_cons, if_pos (h y (by simp)),
      ih x b (fun c hc => h c (by simp [hc])) hx]

theorem dropWhile_append_stop {p : Char → Bool} :
    ∀ (a : List Char) (x : Char) (b : List Char), (∀ c ∈ a, p c = true) → p x = false →
      (a ++ x :: b).dropWhile p = x :: b := by
  intro a
  induction a with
  | nil => intro x b _ hx; simp [List.dropWhile_cons, hx]
  | cons y a ih =>
    intro x b h hx
    rw [List.cons_append, List.dropWhile_cons, if_pos (h y (by simp)),
      ih x b (fun c hc => h c (by simp [hc])) hx]

theorem dropWhile_cons_head {p : Char → Bool} :
    ∀ (l : List Char) (c : Char) (cs : List Char), l.dropWhile p = c :: cs → p c = false := by
  intro l
  induction l with
  | nil => intro c cs h; simp [List.dropWhile] at h
  | cons x l ih =>
    intro c cs h
    rw [List.dropWhile_cons] at h
    cases hx : p x with
    | true => rw [if_pos hx] at h; exact ih _ _ h
    | false =>
      rw [if_neg (by simp [hx])] at h
      cases h
      exact hx

theorem charToDigit?_x : charToDigit? 'x' = none := rfl

theorem charToDigit?_minus : charToDigit? '-' = none := rfl

theorem charToDigit?_plus : charToDigit? '+' = none := rfl

theorem charToDigit?_dot : charToDigit? '.' = none := rfl

/-- On a non-empty string made of decimal digits, the `BigInt` model is just
the base-10 parse: the hexadecimal and sign branches cannot fire. -/
theorem jsBigInt?_digitString {l : List Char} (hne : l ≠ [])
    (hall : ∀ c ∈ l, ∃ d, d < 10 ∧ charToDigit? c = some d) :
    jsBigInt? l = (parseBaseAux 10 0 l).map Int.ofNat := by
  have hnone : ∀ c : Char, charToDigit? c = none → c ∈ l → False := by
    intro c hc hmem
    obtain ⟨d, _, hd⟩ := hall c hmem
    rw [hc] at hd
    exact Option.noConfusion hd
  unfold jsBigInt?
  rw [if_neg hne]
  have h2 : ¬(l.take 2 = ['0', 'x']) := by
    intro h
    have hx : 'x' ∈ l.take 2 := by rw [h]; simp
    exact hnone 'x' charToDigit?_x (List.take_subset 2 l hx)
  rw [if_neg h2]
  have hm : ¬(l.head? = some '-') := by
    intro h
    exact hnone '-' charToDigit?_minus (List.mem_of_mem_head? (by rw [h]; rfl))
  rw [if_neg hm]
  have hp : ¬(l.head? = some '+') := by
    intro h
    exact hnone '+' charToDigit?_plus (List.mem_of_mem_head? (by rw [h]; rfl))
  rw [if_neg hp]
  unfold parseBase?
  rw [if_neg hne]

theorem jsBigInt?_natToChars (n : Nat) : jsBigInt? (natToChars 10 n) = some (n : Int) := by
  rw [jsBigInt?_digitString (natToChars_ne_nil 10 n)
    (fun c hc => natToChars_mem (by omega) (by omega) hc),
    parseBaseAux_natToChars (by omega) (by omega)]
  rfl

theorem jsBigInt?_hex (rest : List Char) :
    jsBigInt? ('0' :: 'x' :: rest) = (parseBase? 16 rest).map Int.ofNat := by
  rfl

theorem jsBigInt?_hexNat (m : Nat) :
    jsBigInt? ('0' :: 'x' :: natToChars 16 m) = some (m : Int) := by
  rw [jsBigInt?_hex]
  unfold parseBase?
  rw [if_neg (natToChars_ne_nil 16 m), parseBaseAux_natToChars (by omega) (by omega)]
  rfl

/-- Stripping leading `'0'` characters (and substituting `"0"` when nothing
is left) does not change the parsed value of a digit string. -/
theorem jsBigInt?_strip {s : List Char} {v : Nat}
    (hall : ∀ c ∈ s, ∃ d, d < 10 ∧ charToDigit? c = some d)
    (hv : parseBaseAux 10 0 s = some v) :
    jsBigInt? (if s.dropWhile (fun c => c == '0') = [] then ['0']
      else s.dropWhile (fun c => c == '0')) = some (v : Int) := by
  have hdecomp : s.takeWhile (fun c => c == '0') ++ s.dropWhile (fun c => c == '0') = s :=
    List.takeWhile_append_dropWhile ..
  have htake : ∀ c ∈ s.takeWhile (fun c => c == '0'), c = '0' := by
    intro c hc
    simpa using List.mem_takeWhile_imp hc
  have hrepl : s.takeWhile (fun c => c == '0') =
      List.replicate (s.takeWhile (fun c => c == '0')).length '0' :=
    List.eq_replicate_of_mem htake
  cases ht : s.dropWhile (fun c => c == '0') with
  | nil =>
    have hs : s = List.replicate (s.takeWhile (fun c => c == '0')).length '0' := by
      conv_lhs => rw [← hdecomp, ht]
      rw [List.append_nil, ← hrepl]
    have hv0 : parseBaseAux 10 0 s = some 0 := by
      rw [hs]
      have := parseBaseAux_replicate_zero (b := 10) (by omega)
        (s.takeWhile (fun c => c == '0')).length []
      simpa using this
    rw [hv] at hv0
    obtain rfl : v = 0 := by
      injection hv0
    decide
  | cons c cs =>
    rw [if_neg (by simp)]
    have hsub : ∀ x ∈ c :: cs, x ∈ s := by
      intro x hx
      exact (List.dropWhile_sublist (fun c => c == '0')).subset (ht ▸ hx)
    rw [jsBigInt?_digitString (by simp) (fun x hx => hall x (hsub x hx))]
    have hback : parseBaseAux 10 0 s = parseBaseAux 10 0 (c :: cs) := by
      conv_lhs => rw [← hdecomp, ht, hrepl]
      exact parseBaseAux_replicate_zero (by omega) _ _
    rw [← hback, hv]
    rfl

/-- Evaluation of `parseTokenAmount` on a string `a ++ "." ++ b` whose two
parts are dot-free and whose fractional part has exactly `decimals`
characters: no error is raised and the concatenation is stripped and
parsed. -/
theorem parseTokenAmount_split (a b : List Char) (d : Nat)
    (ha : ∀ c ∈ a, (c == '.') = false) (hb : ∀ c ∈ b, (c == '.') = false)
    (hlen : b.length = d) :
    parseTokenAmount (.str (a ++ '.' :: b)) d =
      (match jsBigInt? (if (a ++ b).dropWhile (fun c => c == '0') = [] then ['0']
        else (a ++ b).dropWhile (fun c => c == '0')) with
       | some n => .ok n
       | none => .error .notNumeric) := by
  have hcontains : (a ++ '.' :: b).contains '.' = true :=
    List.elem_iff.mpr (by simp)
  have hsplitInt : splitIntPart (a ++ '.' :: b) = a := by
    unfold splitIntPart
    exact takeWhile_append_stop a '.' b (fun c hc => by simp [ha c hc]) (by simp)
  have hsplitFrac : splitFracPart (a ++ '.' :: b) = b := by
    unfold splitFracPart
    rw [dropWhile_append_stop a '.' b (fun c hc => by simp [ha c hc]) (by simp)]
    exact takeWhile_eq_self b (fun c hc => by simp [hb c hc])
  simp only [parseTokenAmount]
  rw [if_pos hcontains, hsplitInt, hsplitFrac, hlen, if_neg (lt_irrefl d)]
  have hpad : padEnd b d '0' = b := by
    unfold padEnd
    rw [hlen]
    simp
  rw [hpad]

/-- Core round-trip: parsing a formatted amount recovers the raw value, for
every decimal count. -/
theorem parseTokenAmount_formatAmount (v d : Nat) :
    parseTokenAmount (.str (formatAmount v d)) d = .ok (v : Int) := by
  by_cases hd : d = 0
  · subst hd
    rw [formatAmount, if_pos rfl]
    have hnodot : ¬((natToChars 10 v).contains '.' = true) := by
      intro h
      obtain ⟨dd, _, hc⟩ := natToChars_mem (by omega) (by omega) (List.elem_iff.mp h)
      rw [charToDigit?_dot] at hc
      exact Option.noConfusion hc
    simp only [parseTokenAmount]
    rw [if_neg hnodot, jsBigInt?_natToChars]
    simp
  · have hSne := natToChars_ne_nil 10 v
    have hSall : ∀ c ∈ natToChars 10 v, ∃ dd, dd < 10 ∧ charToDigit? c = some dd :=
      fun c hc => natToChars_mem (by omega) (by omega) hc
    have hSval : parseBaseAux 10 0 (natToChars 10 v) = some v :=
      parseBaseAux_natToChars (by omega) (by omega) v
    rw [formatAmount, if_neg hd]
    simp only []
    generalize hgen : natToChars 10 v = S at hSne hSall hSval ⊢
    have hsrep : padStart S (d + 1) '0' = List.replicate (d + 1 - S.length) '0' ++ S := rfl
    generalize hs : padStart S (d + 1) '0' = s
    rw [hs] at hsrep
    have hSlen : 0 < S.length := List.length_pos.mpr hSne
    have hslen : d + 1 ≤ s.length := by
      rw [hsrep, List.length_append, List.length_replicate]
      omega
    have hsall : ∀ c ∈ s, ∃ dd, dd < 10 ∧ charToDigit? c = some dd := by
      intro c hc
      rw [hsrep] at hc
      rcases List.mem_append.mp hc with hc | hc
      · have : c = '0' := List.eq_of_mem_replicate hc
        subst this
        exact ⟨0, by omega, rfl⟩
      · exact hSall c hc
    have hsval : parseBaseAux 10 0 s = some v := by
      rw [hsrep, parseBaseAux_replicate_zero (by omega), hSval]
    have hip_ne : s.take (s.length - d) ≠ [] := by
      intro h
      have := congrArg List.length h
      rw [List.length_take] at this
      simp at this
      omega
    rw [if_neg hip_ne]
    have hfplen : (s.drop (s.length - d)).length = d := by
      rw [List.length_drop]
      omega
    have hdotfree : ∀ c ∈ s, (c == '.') = false := by
      intro c hc
      obtain ⟨dd, _, hcd⟩ := hsall c hc
      refine beq_eq_false_iff_ne.mpr ?_
      intro h
      subst h
      rw [charToDigit?_dot] at hcd
      exact Option.noConfusion hcd
    rw [parseTokenAmount_split _ _ d
      (fun c hc => hdotfree c (List.take_subset _ _ hc))
      (fun c hc => hdotfree c (List.drop_subset _ _ hc)) hfplen]
    rw [List.take_append_drop, jsBigInt?_strip hsall hsval]

/-! ## Lemmas: address normalization -/

theorem validateAndParseAddress_ok {s r : List Char}
    (h : validateAndParseAddress s = .ok r) :
    ∃ v, v < FIELD_BOUND ∧ r = '0' :: 'x' :: padStart (natToChars 16 v) 64 '0' := by
  unfold validateAndParseAddress at h
  split at h
  · split at h
    · rename_i v hv
      split at h
      · rename_i hvb
        exact ⟨v, hvb, (Except.ok.inj h).symm⟩
      · exact absurd h (by simp)
    · exact absurd h (by simp)
  · exact absurd h (by simp)

theorem take_two_cons_cons (x y : Char) (l : List Char) :
    (x :: y :: l).take 2 = [x, y] := rfl

theorem drop_two_cons_cons (x y : Char) (l : List Char) :
    (x :: y :: l).drop 2 = l := rfl

theorem validateAndParseAddress_canonical {v : Nat} (hv : v < FIELD_BOUND) :
    validateAndParseAddress ('0' :: 'x' :: padStart (natToChars 16 v) 64 '0') =
      .ok ('0' :: 'x' :: padStart (natToChars 16 v) 64 '0') := by
  have hne : padStart (natToChars 16 v) 64 '0' ≠ [] := by
    unfold padStart
    intro h
    rcases List.append_eq_nil.mp h with ⟨_, h2⟩
    exact natToChars_ne_nil 16 v h2
  have hparse : parseBase? 16 (padStart (natToChars 16 v) 64 '0') = some v := by
    unfold parseBase?
    rw [if_neg hne]
    unfold padStart
    rw [parseBaseAux_replicate_zero (by omega), parseBaseAux_natToChars (by omega) (by omega)]
  unfold validateAndParseAddress
  rw [take_two_cons_cons, if_pos rfl, drop_two_cons_cons, hparse]
  simp only []
  rw [if_pos hv]

theorem parseStarknetAddress_shape {s r : List Char}
    (h : parseStarknetAddress s = .ok r) :
    ∃ v, v < FIELD_BOUND ∧ r = '0' :: 'x' :: padStart (natToChars 16 v) 64 '0' := by
  unfold parseStarknetAddress at h
  split at h
  · rename_i hval
    cases h
    exact validateAndParseAddress_ok hval
  · split at h
    · exact absurd h (by simp)
    · split at h
      · rename_i hval
        cases h
        exact validateAndParseAddress_ok hval
      · exact absurd h (by simp)

/-! ## Lemmas: uint256 split in range -/

theorem splitUint256_in_range {v : Nat} (hv : v < 2 ^ 256) :
    splitUint256 (v : Int) =
      ('0' :: 'x' :: natToChars 16 (v % 2 ^ 128),
       '0' :: 'x' :: natToChars 16 (v / 2 ^ 128)) := by
  have h1 : ¬((v : Int) < 0 ∨ (2 : Int) ^ 256 ≤ (v : Int)) := by
    push_cast
    omega
  unfold splitUint256 bnToUint256
  rw [if_neg h1]
  simp only [Int.toNat_natCast]

/-! ## Lemmas: formatting refinement -/

theorem formatAmount_eq_spec (raw d : Nat) :
    formatAmount raw d = formatScaledSpec raw d := by
  unfold formatAmount formatScaledSpec
  by_cases hd : d = 0
  · rw [if_pos hd, if_pos hd]
  · rw [if_neg hd, if_neg hd]
    have hpad : padStart (natToChars 10 raw) (d + 1) '0' =
        (if d < (natToChars 10 raw).length then natToChars 10 raw
         else List.replicate (d + 1 - (natToChars 10 raw).length) '0' ++ natToChars 10 raw) := by
      unfold padStart
      split
    <;> first
      | rfl
      | · rename_i h
          have h0 : d + 1 - (natToChars 10 raw).length = 0 := by omega
          rw [h0]
          simp
    rw [hpad]

theorem formatAmount_zero {d : Nat} (hd : 0 < d) :
    formatAmount 0 d = '0' :: '.' :: List.replicate d '0' := by
  have hd0 : d ≠ 0 := by omega
  rw [formatAmount, if_neg hd0]
  have h1 : natToChars 10 0 = ['0'] := rfl
  have h2 : padStart (natToChars 10 0) (d + 1) '0' = List.replicate (d + 1) '0' := by
    rw [h1]
    unfold padStart
    simp only [List.length_singleton, Nat.add_sub_cancel]
    rw [← List.replicate_succ']
  rw [h2]
  simp only []
  have hlen : (List.replicate (d + 1) '0').length = d + 1 := List.length_replicate ..
  rw [hlen]
  have h3 : d + 1 - d = 1 := by omega
  rw [h3, List.take_replicate, List.drop_replicate]
  have h4 : min 1 (d + 1) = 1 := by omega
  have h5 : d + 1 - 1 = d := by omega
  rw [h4, h5]
  simp

theorem parseTokenAmount_eq_parseScaledSpec (s : List Char) (d : Nat) :
    parseTokenAmount (.str s) d = parseScaledSpec s d := rfl

theorem parseTokenAmount_tooMany_iff (s : List Char) (d : Nat)
    (h : s.contains '.' = true) :
    parseTokenAmount (.str s) d = .error (.tooManyDecimals d) ↔
      d < (splitFracPart s).length := by
  simp only [parseTokenAmount]
  rw [if_pos h]
  constructor
  · intro heq
    by_contra hlen
    rw [if_neg hlen] at heq
    split at heq
    · exact Except.noConfusion heq
    · exact TransferErr.noConfusion (Except.error.inj heq)
  · intro hlen
    rw [if_pos hlen]

/-! ## The claims -/

/-- C1: for every non-negative integer `v` and every decimal count `d` in
[0,18], parsing the formatted string back yields the original value:
`parseTokenAmount (formatAmount v d) d = v`. -/
theorem claim1_parse_format_roundTrip (v d : Nat) (_hd : d ≤ 18) :
    parseTokenAmount (.str (formatAmount v d)) d = .ok (v : Int) :=
  parseTokenAmount_formatAmount v d

/-- Witness for C1 at `v = 12345`, `d = 7`. -/
theorem claim1_witness :
    7 ≤ 18 ∧ parseTokenAmount (.str (formatAmount 12345 7)) 7 = .ok (12345 : Int) :=
  ⟨by decide, claim1_parse_format_roundTrip 12345 7 (by decide)⟩

/-- C2: `formatAmount` follows the fixed-point padding algorithm of the
spec's `formatScaled` for all inputs; in particular `formatAmount 0 d` is
`"0."` followed by `d` zeros for `d > 0`, `formatAmount 123 2 = "1.23"`,
`formatAmount 5 3 = "0.005"`, and `formatAmount 1000 0 = "1000"`. -/
theorem claim2_formatAmount_follows_spec :
    (∀ raw d, formatAmount raw d = formatScaledSpec raw d) ∧
    (∀ d, 0 < d → formatAmount 0 d = '0' :: '.' :: List.replicate d '0') ∧
    formatAmount 123 2 = ['1', '.', '2', '3'] ∧
    formatAmount 5 3 = ['0', '.', '0', '0', '5'] ∧
    formatAmount 1000 0 = ['1', '0', '0', '0'] :=
  ⟨formatAmount_eq_spec, fun _ hd => formatAmount_zero hd, by decide, by decide, by decide⟩

/-- Witness for C2's zero-formatting clause at `d = 3`. -/
theorem claim2_witness : formatAmount 0 3 = '0' :: '.' :: List.replicate 3 '0' :=
  claim2_formatAmount_follows_spec.2.1 3 (by decide)

/-- C3: for every non-negative integer `v < 2^256`, combining the two words
produced by splitting recovers the value:
`combineUint256 (splitUint256 v).low (splitUint256 v).high = v`. -/
theorem claim3_combine_split_roundTrip (v : Nat) (hv : v < 2 ^ 256) :
    combineUint256 (splitUint256 (v : Int)).1 (splitUint256 (v : Int)).2 = .ok (v : Int) := by
  rw [splitUint256_in_range hv]
  unfold combineUint256 uint256ToBN
  rw [jsBigInt?_hexNat, jsBigInt?_hexNat]
  simp only []
  congr 1
  exact_mod_cast congrArg (Nat.cast : Nat → Int) (Nat.mod_add_div' v (2 ^ 128))

/-- Witness for C3 at `v = 12345678901234567890`. -/
theorem claim3_witness :
    (12345678901234567890 : Nat) < 2 ^ 256 ∧
    combineUint256 (splitUint256 (12345678901234567890 : Int)).1
      (splitUint256 (12345678901234567890 : Int)).2 = .ok (12345678901234567890 : Int) :=
  ⟨by decide, claim3_combine_split_roundTrip 12345678901234567890 (by decide)⟩

/-- C4 counterexample: the claim says `splitUint256 (2^256)` raises a
`RangeError`, but the source catches the library's error and falls back to
manual masking, so the call returns the masked pair `("0x0", "0x0")` instead
of failing (the embedded `splitUint256` is total because every operation of
the fallback branch is). -/
theorem claim4_counterexample :
    splitUint256 ((2 : Int) ^ 256) = (['0', 'x', '0'], ['0', 'x', '0']) := by decide

/-- C4 amended: `splitUint256` never raises; for every value it returns
`low = value mod 2^128` and `high = (value div 2^128) mod 2^128` as
`0x`-prefixed hex strings (for in-range values the masking of `high` is the
identity, giving the claimed `low = value mod 2^128`, `high = value div
2^128`); in particular `splitUint256 (2^128 - 1)` yields
`low = 0xff…f` (32 f's) and `high = 0x0`. -/
theorem claim4_split_masks :
    (∀ v : Int, splitUint256 v =
      ('0' :: 'x' :: natToChars 16 (v % 2 ^ 128).toNat,
       '0' :: 'x' :: natToChars 16 ((v / 2 ^ 128) % 2 ^ 128).toNat)) ∧
    splitUint256 ((2 : Int) ^ 128 - 1) =
      ('0' :: 'x' :: List.replicate 32 'f', ['0', 'x', '0']) := by
  constructor
  · intro v
    unfold splitUint256 bnToUint256
    by_cases h : v < 0 ∨ (2 : Int) ^ 256 ≤ v
    · rw [if_pos h]
    · rw [if_neg h]
      push_neg at h
      obtain ⟨h0, h256⟩ := h
      obtain ⟨n, rfl⟩ := Int.eq_ofNat_of_zero_le h0
      have hn256 : n < 2 ^ 256 := by exact_mod_cast h256
      have hq : n / 2 ^ 128 < 2 ^ 128 := by
        rw [Nat.div_lt_iff_lt_mul (by positivity)]
        calc n < 2 ^ 256 := hn256
          _ = 2 ^ 128 * 2 ^ 128 := by rw [← pow_add]
      have hlow : (((n : Int)) % 2 ^ 128).toNat = n % 2 ^ 128 := by
        have hcast : ((n : Int)) % 2 ^ 128 = ((n % 2 ^ 128 : Nat) : Int) := by
          push_cast
          ring
        rw [hcast, Int.toNat_natCast]
      have hhigh : ((((n : Int)) / 2 ^ 128) % 2 ^ 128).toNat = n / 2 ^ 128 := by
        have hcast : (((n : Int)) / 2 ^ 128) % 2 ^ 128 =
            ((n / 2 ^ 128 % 2 ^ 128 : Nat) : Int) := by
          push_cast
          ring
        rw [hcast, Int.toNat_natCast, Nat.mod_eq_of_lt hq]
      simp only [Int.toNat_natCast, hlow, hhigh]
  · decide

/-- C5 counterexample: the claim says a valid address is returned in
normalized canonical form, but `resolveNameOrAddress` returns the input
string unchanged: `"0x1"` is valid, its canonical form is zero-padded to 64
hex digits, yet the resolver returns `"0x1"` itself. -/
theorem claim5_counterexample :
    isValidAddress ['0', 'x', '1'] = true ∧
    resolveNameOrAddress (fun _ => .error ()) ['0', 'x', '1'] = .ok ['0', 'x', '1'] ∧
    parseStarknetAddress ['0', 'x', '1'] =
      .ok ('0' :: 'x' :: (List.replicate 63 '0' ++ ['1'])) ∧
    (['0', 'x', '1'] : List Char) ≠ '0' :: 'x' :: (List.replicate 63 '0' ++ ['1']) :=
  ⟨rfl, rfl, rfl, by decide⟩

/-- C5 amended: for every input that classifies as a valid address,
`resolveNameOrAddress` returns the input string unchanged, not its
normalized canonical form (callers such as `prepareTransfer` apply
`parseStarknetAddress` to the result themselves). -/
theorem claim5_valid_address_passthrough
    (lookup : List Char → Except Unit (List Char)) (s : List Char)
    (h : isValidAddress s = true) :
    resolveNameOrAddress lookup s = .ok s := by
  unfold resolveNameOrAddress
  rw [if_pos h]

/-- Witness for the amended C5 at `"0x1"`. -/
theorem claim5_witness :
    isValidAddress ['0', 'x', '1'] = true ∧
    resolveNameOrAddress (fun _ => .ok ['0', 'x', '2']) ['0', 'x', '1'] = .ok ['0', 'x', '1'] :=
  ⟨rfl, claim5_valid_address_passthrough _ _ rfl⟩

/-- C6 counterexample: the claim says a lookup returning the zero address in
any representation fails, but the source only tests the literal string
`'0x0'` (and falsiness): a lookup returning `"0x00"` — also the zero address,
as its parsed value 0 shows — is returned as a successful result. -/
theorem claim6_counterexample :
    resolveNameOrAddress (fun _ => .ok ['0', 'x', '0', '0'])
      ['v', 'i', 't', 'a', 'l', 'i', 'k'] = .ok ['0', 'x', '0', '0'] ∧
    jsBigInt? ['0', 'x', '0', '0'] = some 0 :=
  ⟨rfl, rfl⟩

/-- C6 amended: for a name input (not a valid address, passing the domain
test) whose directory lookup raises, returns the empty string, or returns
exactly the string `'0x0'`, `resolveNameOrAddress` fails with an error;
zero results in other representations are not detected. -/
theorem claim6_zero_literal_check
    (lookup : List Char → Except Unit (List Char)) (n : List Char)
    (haddr : isValidAddress n = false) (hdom : isStarkDomain n = true)
    (hlk : lookup (if endsWithStark n then n else n ++ starkSuffix) = .error () ∨
           lookup (if endsWithStark n then n else n ++ starkSuffix) = .ok [] ∨
           lookup (if endsWithStark n then n else n ++ starkSuffix) = .ok ['0', 'x', '0']) :
    ∃ e, resolveNameOrAddress lookup n = .error e := by
  unfold resolveNameOrAddress
  simp only []
  rw [if_neg (by simp [haddr]), if_pos hdom]
  rcases hlk with hlk | hlk | hlk <;> rw [hlk] <;> exact ⟨_, rfl⟩

/-- Witness for the amended C6 at the name `"vitalik"` and a lookup
returning `'0x0'`. -/
theorem claim6_witness :
    isValidAddress ['v', 'i', 't', 'a', 'l', 'i', 'k'] = false ∧
    isStarkDomain ['v', 'i', 't', 'a', 'l', 'i', 'k'] = true ∧
    ∃ e, resolveNameOrAddress (fun _ => .ok ['0', 'x', '0'])
      ['v', 'i', 't', 'a', 'l', 'i', 'k'] = .error e :=
  ⟨rfl, rfl, claim6_zero_literal_check _ _ rfl rfl (Or.inr (Or.inr rfl))⟩

/-- C7: on every string containing a decimal point, `parseTokenAmount`
agrees with the spec's `parseScaled` algorithm, and raises the
too-many-fractional-digits error (reporting the maximum `d`) exactly when
the fractional part is longer than `d`; in particular
`parseTokenAmount "1.5" 18 = 1500000000000000000` and
`parseTokenAmount "1.123456789012345678901" 18` raises it. -/
theorem claim7_parse_follows_spec :
    (∀ (s : List Char) (d : Nat), s.contains '.' = true →
      parseTokenAmount (.str s) d = parseScaledSpec s d ∧
      (parseTokenAmount (.str s) d = .error (.tooManyDecimals d) ↔
        d < (splitFracPart s).length)) ∧
    parseTokenAmount (.str ['1', '.', '5']) 18 = .ok 1500000000000000000 ∧
    parseTokenAmount (.str "1.123456789012345678901".toList) 18 =
      .error (.tooManyDecimals 18) :=
  ⟨fun s d h => ⟨parseTokenAmount_eq_parseScaledSpec s d, parseTokenAmount_tooMany_iff s d h⟩,
    rfl, rfl⟩

/-- Witness for C7 at `"1.5"` with `d = 2`. -/
theorem claim7_witness :
    (['1', '.', '5'] : List Char).contains '.' = true ∧
    parseTokenAmount (.str ['1', '.', '5']) 2 = parseScaledSpec ['1', '.', '5'] 2 ∧
    (parseTokenAmount (.str ['1', '.', '5']) 2 = .error (.tooManyDecimals 2) ↔
      2 < (splitFracPart ['1', '.', '5']).length) :=
  ⟨rfl, (claim7_parse_follows_spec.1 ['1', '.', '5'] 2 rfl).1,
    (claim7_parse_follows_spec.1 ['1', '.', '5'] 2 rfl).2⟩

/-- C8: address normalization is idempotent — whenever
`parseStarknetAddress x` succeeds with `r`, parsing `r` again succeeds with
`r` itself. -/
theorem claim8_parseStarknetAddress_idempotent (x r : List Char)
    (h : parseStarknetAddress x = .ok r) :
    parseStarknetAddress r = .ok r := by
  obtain ⟨v, hv, rfl⟩ := parseStarknetAddress_shape h
  unfold parseStarknetAddress
  rw [validateAndParseAddress_canonical hv]

/-- Witness for C8 at `"0x1"`. -/
theorem claim8_witness :
    parseStarknetAddress ['0', 'x', '1'] =
      .ok ('0' :: 'x' :: (List.replicate 63 '0' ++ ['1'])) ∧
    parseStarknetAddress ('0' :: 'x' :: (List.replicate 63 '0' ++ ['1'])) =
      .ok ('0' :: 'x' :: (List.replicate 63 '0' ++ ['1'])) :=
  ⟨rfl, claim8_parseStarknetAddress_idempotent ['0', 'x', '1']
    ('0' :: 'x' :: (List.replicate 63 '0' ++ ['1'])) rfl⟩

/-- C9 counterexample: the claim says a felt-to-string decoding failure is
surfaced as a typed error, but `feltToString` catches the failure and
returns `String(felt)` — the input itself — as a fallback value: with a
decoder that fails on `"0x1"`, the call still returns `"0x1"` normally. -/
theorem claim9_counterexample :
    (fun _ : List Char => (none : Option (List Char))) ['0', 'x', '1'] = none ∧
    feltToString (fun _ => none) ['0', 'x', '1'] = ['0', 'x', '1'] :=
  ⟨rfl, rfl⟩

/-- C9 amended: whenever the external short-string decoder fails,
`feltToString` returns the input itself (the `String(felt)` fallback) as an
ordinary value; the failure is logged but never surfaced as a typed error
(`formatContractValue` ends in the same catch-log-fallback pattern). -/
theorem claim9_feltToString_fallback
    (decode : List Char → Option (List Char)) (felt : List Char)
    (h : decode felt = none) :
    feltToString decode felt = felt := by
  unfold feltToString
  rw [h]

/-- Witness for the amended C9. -/
theorem claim9_witness :
    (fun _ : List Char => (none : Option (List Char))) ['0', 'x', '7'] = none ∧
    feltToString (fun _ => none) ['0', 'x', '7'] = ['0', 'x', '7'] :=
  ⟨rfl, claim9_feltToString_fallback _ _ rfl⟩

/-- C10: a `bigint` amount is passed through unscaled while the decimal
string of the same number (no decimal point) is multiplied by `10^d`, so the
two input forms denote different raw quantities whenever `d > 0` and the
amount is positive. -/
theorem claim10_bigint_passthrough (n : Int) (m d : Nat) :
    parseTokenAmount (.big n) d = .ok n ∧
    parseTokenAmount (.str (natToChars 10 m)) d = .ok ((m : Int) * 10 ^ d) ∧
    (0 < d → 0 < m → (m : Int) * 10 ^ d ≠ (m : Int)) := by
  refine ⟨rfl, ?_, ?_⟩
  · have hnodot : ¬((natToChars 10 m).contains '.' = true) := by
      intro h
      obtain ⟨dd, _, hc⟩ := natToChars_mem (by omega) (by omega) (List.elem_iff.mp h)
      rw [charToDigit?_dot] at hc
      exact Option.noConfusion hc
    simp only [parseTokenAmount]
    rw [if_neg hnodot, jsBigInt?_natToChars]
  · intro hd hm heq
    have h1 : (1 : Int) ≤ (m : Int) := by exact_mod_cast hm
    have h10 : (10 : Int) ≤ 10 ^ d := by
      calc (10 : Int) = 10 ^ 1 := (pow_one 10).symm
        _ ≤ 10 ^ d := pow_le_pow_right₀ (by norm_num) hd
    have h2 : (m : Int) * 10 ≤ (m : Int) * 10 ^ d :=
      mul_le_mul_of_nonneg_left h10 (by linarith)
    rw [heq] at h2
    linarith

/-- Witness for C10 at `n = 5`, `m = 2`, `d = 3`. -/
theorem claim10_witness :
    parseTokenAmount (.big 5) 3 = .ok 5 ∧
    parseTokenAmount (.str (natToChars 10 2)) 3 = .ok (((2 : Nat) : Int) * 10 ^ 3) ∧
    ((2 : Nat) : Int) * 10 ^ 3 ≠ ((2 : Nat) : Int) :=
  ⟨(claim10_bigint_passthrough 5 2 3).1, (claim10_bigint_passthrough 5 2 3).2.1,
    (claim10_bigint_passthrough 5 2 3).2.2 (by decide) (by decide)⟩

end StarknetMCP
